import Mathlib

/-!
# Verification of the reter reasoning engine against its specification

This file gives a shallow embedding, in Lean 4, of the parts of the reter
repository that the checked claims are about, together with theorems settling
each claim.

The embedded code comes from two places:

* `src/reter/reasoner.py` and `src/reter/query_result_sets.py` — the Python
  layer.  Its functions (`add_triple`, `_detect_property_types`, `pattern`,
  `live_pattern`, `get_inferred_facts`,
  `PropertyPathResultSet._compute_transitive_closure`) are translated
  definition by definition below.  Python dicts of string attributes become
  association lists (`AttrMap`), Python sets become `Finset`/list membership,
  and Python `None` becomes `Option.none`.
* the C++ engine (`reter_core.owl_rete_cpp`), which is *not* part of the
  source tree here.  For the claims that are decided by that engine (exact
  duplicate handling in the fact store, delta-journal CRC replay, hybrid
  network compaction) the definitions are modelled from the specification's
  own words; each such definition carries a doc comment starting with
  `Modelled from the spec:`.

Machine integers do not occur in the Python layer; the CRC32 model uses `Nat`
with explicit reductions modulo 2^32 / 256 where the 32-bit / byte semantics
matters.
-/

set_option maxHeartbeats 2000000
set_option maxRecDepth 10000

/-! ## Attribute maps (Python dicts of strings)

A fact, a pattern binding row, and every other string-keyed dictionary in the
Python code is modelled as an association list in insertion order; `fget`
models `dict.get(key)` (first matching key, `none` when absent). -/

/-- A Python dict from attribute name to string value, in insertion order. -/
def AttrMap : Type := List (String × String)

instance : DecidableEq AttrMap := by
  unfold AttrMap
  infer_instance

instance : Membership (String × String) AttrMap := by
  unfold AttrMap
  infer_instance

instance : Append AttrMap := by
  unfold AttrMap
  infer_instance

/-- Lookup `fget m k` models Python `m.get(k)`: the value at the first occurrence of
key `k`, or `none`. -/
def fget (m : AttrMap) (k : String) : Option String :=
  (List.find? (fun kv => kv.1 == k) m).map (fun kv => kv.2)

/-! ## `Reter._detect_property_types` (reasoner.py lines 1337-1368)

The Python method builds a dict `property_types`.  It first inserts the
reserved same-as keys when either reserved predicate was asked about, then
walks every fact of the network in store order, overwriting
`property_types[role] = "role"` for each live `role_assertion` whose role is a
queried predicate and `property_types[prop] = "data"` for each live
`data_assertion` whose property is a queried predicate.  `dict_upd` models one
dict assignment; the walk is a left fold. -/

/-- One Python dict assignment `m[k] = v` on a dict modelled as a function. -/
def dict_upd (m : String → Option String) (k v : String) : String → Option String :=
  fun q => if q = k then some v else m q

/-- One iteration of the fact loop of `_detect_property_types`.  The guards
mirror Python truthiness: `if role and role in predicates`. -/
def detect_step (preds : List String) (m : String → Option String) (f : AttrMap) :
    String → Option String :=
  if fget f "type" = some "role_assertion" then
    match fget f "role" with
    | some r => if r ≠ "" ∧ r ∈ preds then dict_upd m r "role" else m
    | none => m
  else if fget f "type" = some "data_assertion" then
    match fget f "property" with
    | some p => if p ≠ "" ∧ p ∈ preds then dict_upd m p "data" else m
    | none => m
  else m

/-- Method `Reter._detect_property_types(predicates)` over the facts currently in the
network (`facts`, in store order).  Returns the final dict as a lookup
function. -/
def detect_property_types (facts : List AttrMap) (preds : List String) :
    String → Option String :=
  let m0 : String → Option String := fun _ => none
  let m1 :=
    if "same_as" ∈ preds ∨ "sameAs" ∈ preds then
      dict_upd (dict_upd m0 "same_as" "same_as") "sameAs" "same_as"
    else m0
  facts.foldl (detect_step preds) m1

/-! ## `Reter.add_triple` (reasoner.py lines 1262-1335)

`add_triple(subject, predicate, object_value)` builds a fact dict and hands it
to the C++ network.  The dict construction is pure and is embedded as
`add_triple_fact`.  The call `float(object_value)` belongs to the Python
runtime, not to this repository, so it enters as the parameter
`float_parses`; the quote / digit checks are embedded directly. -/

/-- The double-quote character, written by code point to keep the source
plain. -/
def double_quote_char : Char := Char.ofNat 34

/-- The single-quote character, written by code point. -/
def single_quote_char : Char := Char.ofNat 39

/-- Python `value.startswith(c)` for a one-character prefix `c`. -/
def starts_with_char (v : String) (c : Char) : Bool :=
  match v.data with
  | [] => false
  | a :: _ => a == c

/-- Python `str.isdigit` restricted to ASCII digits: nonempty and all digits. -/
def py_is_digit (s : String) : Bool :=
  match s.data with
  | [] => false
  | l => l.all Char.isDigit

/-- The `is_literal` computation of `add_triple` (lines 1302-1311):
`float(object_value)` parses, or the value starts with a double or single
quote, or it is all digits. -/
def is_literal_value (float_parses : String → Bool) (v : String) : Bool :=
  float_parses v || starts_with_char v double_quote_char ||
    starts_with_char v single_quote_char || py_is_digit v

/-- The canonical `data_assertion` dict built by `add_triple`
(lines 1315-1320), in Python key-insertion order. -/
def data_assertion_dict (pred subject obj : String) : AttrMap :=
  [("type", "data_assertion"), ("property", pred), ("subject", subject), ("value", obj)]

/-- The canonical `role_assertion` dict built by `add_triple`
(lines 1322-1328), in Python key-insertion order. -/
def role_assertion_dict (pred subject obj : String) : AttrMap :=
  [("type", "role_assertion"), ("role", pred), ("subject", subject), ("object", obj)]

/-- The fact dict that `Reter.add_triple(subject, predicate, object_value)`
constructs and passes to `network.add_fact` /
`network.add_fact_with_source`.  `facts` is the network's current fact list
(consulted through `_detect_property_types`), `float_parses` stands for the
Python `float()` parse test. -/
def add_triple_fact (float_parses : String → Bool) (facts : List AttrMap)
    (subject pred obj : String) : AttrMap :=
  if pred = "type" then
    [("type", "instance_of"), ("concept", obj), ("individual", subject)]
  else
    let pt := detect_property_types facts [pred] pred
    if pt = some "data" then data_assertion_dict pred subject obj
    else if pt = some "role" then role_assertion_dict pred subject obj
    else if pt = some "same_as" then
      [("type", "same_as"), ("ind1", subject), ("ind2", obj)]
    else
      if is_literal_value float_parses obj then data_assertion_dict pred subject obj
      else role_assertion_dict pred subject obj

/-! ## `Reter.pattern` compilation (reasoner.py lines 1448-1501)

A triple pattern `(S, P, O)` compiles into α-level `Condition` objects on a
fresh fact variable named `?f_<number of conditions so far>`.  The predicate
classification used is `_detect_property_types` on the set of non-`type`
predicates of the query, with `property_types.get(pred, "role")` as the
lookup — unknown predicates always fall back to `"role"` here. -/

/-- A condition object `owl_rete_cpp.Condition(fact_var, attribute, value)`. -/
structure Condition where
  fvar : String
  attr : String
  val : String
deriving DecidableEq

/-- The body of the compilation loop of `pattern()` for one triple `(s, p, o)`,
given the precomputed classification dict `ptypes` and the conditions
accumulated so far (`acc`); the fresh fact variable is
`"?f_" ++ toString acc.length`, mirroring `f"?f_{len(conditions)}"`. -/
def compile_triple_step (ptypes : String → Option String) (acc : List Condition)
    (t : String × String × String) : List Condition :=
  let s := t.1
  let p := t.2.1
  let o := t.2.2
  if p = "type" then
    let fv := "?f_" ++ toString acc.length
    acc ++ [⟨fv, "type", "instance_of"⟩, ⟨fv, "concept", o⟩, ⟨fv, "individual", s⟩]
  else
    let pt := match ptypes p with
      | some x => x
      | none => "role"
    let fv := "?f_" ++ toString acc.length
    if pt = "same_as" then
      acc ++ [⟨fv, "type", "same_as"⟩, ⟨fv, "ind1", s⟩, ⟨fv, "ind2", o⟩]
    else if pt = "data" then
      acc ++ [⟨fv, "type", "data_assertion"⟩, ⟨fv, "property", p⟩,
        ⟨fv, "subject", s⟩, ⟨fv, "value", o⟩]
    else
      acc ++ [⟨fv, "type", "role_assertion"⟩, ⟨fv, "role", p⟩,
        ⟨fv, "subject", s⟩, ⟨fv, "object", o⟩]

/-- The non-`type` predicates of a pattern list — the set
`{pred for (subj, pred, obj) in patterns if pred != "type"}` of `pattern()`. -/
def pattern_predicates (pats : List (String × String × String)) : List String :=
  (pats.filter (fun t => t.2.1 ≠ "type")).map (fun t => t.2.1)

/-- The α-level conditions `pattern()` compiles for a list of triple patterns
against a network holding `facts` (cache-miss path, lines 1448-1501). -/
def pattern_conditions (facts : List AttrMap)
    (pats : List (String × String × String)) : List Condition :=
  let ptypes := detect_property_types facts (pattern_predicates pats)
  pats.foldl (compile_triple_step ptypes) []

/-! ## `Reter.live_pattern` compilation (reasoner.py lines 2022-2051)

`live_pattern` converts triple patterns to conditions with its own loop: the
`type` branch is as in `pattern()`, but every other predicate is compiled
unconditionally to `data_assertion` conditions — no property-type detection is
performed. -/

/-- One iteration of the triple loop of `live_pattern`. -/
def live_compile_triple_step (acc : List Condition)
    (t : String × String × String) : List Condition :=
  let s := t.1
  let p := t.2.1
  let o := t.2.2
  if p = "type" then
    let fv := "?f_" ++ toString acc.length
    acc ++ [⟨fv, "type", "instance_of"⟩, ⟨fv, "concept", o⟩, ⟨fv, "individual", s⟩]
  else
    let fv := "?f_" ++ toString acc.length
    acc ++ [⟨fv, "type", "data_assertion"⟩, ⟨fv, "subject", s⟩,
      ⟨fv, "property", p⟩, ⟨fv, "value", o⟩]

/-- The α-level conditions `live_pattern()` compiles for a pattern list. -/
def live_pattern_conditions (pats : List (String × String × String)) : List Condition :=
  pats.foldl live_compile_triple_step []

/-! ## α-level evaluation of a single-triple query

For comparing what the two compilers match, a small evaluator for the α
network on a one-triple query: a condition whose value starts with `?` binds a
variable, every other condition is a constant test `attribute = value` on the
candidate fact.  A fact matches the conjunction iff it passes every constant
test.  This mirrors the α (constant-test) nodes of the discrimination
network. -/

/-- Query variables start with `?`. -/
def is_var (x : String) : Bool := starts_with_char x (Char.ofNat 63)

/-- A fact passes the α-level constant tests of a condition list. -/
def alpha_matches (conds : List Condition) (f : AttrMap) : Bool :=
  (conds.filter (fun c => !is_var c.val)).all
    (fun c => fget f c.attr == some c.val)

/-- The facts of the store that an α chain for a one-triple query selects. -/
def alpha_select (conds : List Condition) (facts : List AttrMap) : List AttrMap :=
  facts.filter (alpha_matches conds)

/-! ## The query cache of `pattern()` (reasoner.py lines 1420-1438, 1502-1504)

`pattern()` derives a cache key `str(hash(cache_tuple))` from
`(patterns, where, values, not_exists)` (lists made hashable, values sorted),
asks `network.get_cached_query(cache)` first, and only builds a new network
fragment on a cache miss.  The Python `hash` is deterministic within one
process and enters as the parameter `py_hash`; the network's cache-key →
production map is modelled as an association list from keys to production
ids, with `build` appending a fresh id. -/

/-- The argument tuple whose hash keys the query cache. -/
structure QueryArgs where
  patterns : List (String × String × String)
  filters : List (List String)
  valueLists : List (String × List String)
  negated : List (String × String × String)
deriving DecidableEq

/-- The auto-generated cache key `str(hash(cache_tuple))`. -/
def cache_key (py_hash : QueryArgs → Int) (a : QueryArgs) : String :=
  toString (py_hash a)

/-- The network state seen by `pattern()`: the cache-key → production map and
a supply of fresh production ids. -/
structure NetCache where
  cache : List (String × Nat)
  nextId : Nat
deriving DecidableEq

/-- Lookup `network.get_cached_query(key)`. -/
def get_cached_query (n : NetCache) (k : String) : Option Nat :=
  (n.cache.find? (fun e => e.1 == k)).map (fun e => e.2)

/-- The control flow of `pattern()` around the cache: compute the key, return
the cached production on a hit, otherwise build (allocate a production,
record it under the key).  The `Bool` reports whether a new network fragment
was built. -/
def pattern_call (py_hash : QueryArgs → Int) (n : NetCache) (a : QueryArgs) :
    Nat × NetCache × Bool :=
  let key := cache_key py_hash a
  match get_cached_query n key with
  | some p => (p, n, false)
  | none => (n.nextId, ⟨n.cache ++ [(key, n.nextId)], n.nextId + 1⟩, true)

/-! ## `Reter.get_inferred_facts` (reasoner.py lines 2067-2083)

`get_all_facts()` returns an Arrow table; modelled as a schema (column names)
plus rows (each row an attribute map; a missing key is an Arrow null).
`get_inferred_facts` filters on equality of the `inferred` column with `"true"` when the column exists
and otherwise returns `table.slice(0, 0)` — no rows, same schema. -/

/-- A PyArrow table: column names plus rows. -/
structure ArrowTable where
  colNames : List String
  rows : List AttrMap
deriving DecidableEq

/-- Method `Reter.get_inferred_facts()` given the `get_all_facts()` table. -/
def get_inferred_facts (t : ArrowTable) : ArrowTable :=
  if "inferred" ∈ t.colNames then
    ⟨t.colNames, t.rows.filter (fun r => fget r "inferred" == some "true")⟩
  else
    ⟨t.colNames, []⟩

/-! ## The fact store's duplicate handling (C++ engine)

Modelled from the spec: the fact store itself lives in the C++ extension
`reter_core.owl_rete_cpp`, not under the source tree here; only its tests
(`tests/test_hybrid_network.py`) are present.  The spec says: two facts are
identical iff they agree on every attribute (including `type`); duplicates
must not be added twice; a duplicate insertion is a no-op returning false;
`add(fact) → (id, added?)` rejects exact duplicates. -/

/-- Modelled from the spec: two facts are identical iff they agree on every
attribute (including `type`).  Checking agreement on the keys of both maps
decides agreement everywhere (keys absent from both yield `none = none`). -/
def fact_identical (f g : AttrMap) : Bool :=
  ((f : List (String × String)).map (fun kv => kv.1) ++
   (g : List (String × String)).map (fun kv => kv.1)).all
    (fun k => fget f k == fget g k)

/-- Modelled from the spec: the fact store's working memory, in insertion
order. -/
structure FactStore where
  facts : List AttrMap
deriving DecidableEq

/-- Modelled from the spec: `add(fact) → added?` — a no-op returning `false`
when an identical fact is already live, otherwise append and return `true`. -/
def store_add (st : FactStore) (f : AttrMap) : FactStore × Bool :=
  if st.facts.any (fact_identical f) then (st, false)
  else (⟨st.facts ++ [f]⟩, true)

/-- The store's `fact_count`. -/
def store_fact_count (st : FactStore) : Nat := st.facts.length

/-! ## The delta journal and CRC32 replay (C++ engine)

Modelled from the spec: the journal lives in the C++ extension; only its
tests (`tests/test_crc32_journal.py`) are present.  The spec fixes the entry
layout `[length(4) | op(1) | payload(length−5) | crc32(4)]` with the CRC
computed over `length‖op‖payload` (little-endian, IEEE-802.3 polynomial), and
the replay rule: a mismatching entry is skipped with a warning and replay
continues; an entry whose stored `crc32` is `0` is accepted (old-format escape
hatch).  The numeric opcode values are not fixed by the spec; `op_add_fact`
is a representative ADD_FACT opcode. -/

/-- One step of the reflected CRC-32 bit loop (polynomial 0xEDB88320). -/
def crc_bit_step (c : Nat) : Nat :=
  if c % 2 = 1 then (c / 2) ^^^ 3988292384 else c / 2

/-- Fold one byte into a CRC-32 accumulator: xor in the byte, then eight bit
steps. -/
def crc_byte (c b : Nat) : Nat :=
  (List.range 8).foldl (fun x _ => crc_bit_step x) (c ^^^ (b % 256))

/-- IEEE-802.3 CRC-32 of a byte list (init and final xor 0xFFFFFFFF). -/
def crc32 (bs : List Nat) : Nat :=
  ((bs.foldl crc_byte 4294967295) ^^^ 4294967295) % 4294967296

/-- Modelled from the spec: one delta-journal entry.  `stored` is the crc32
field as read from disk. -/
structure JEntry where
  op : Nat
  payload : List Nat
  stored : Nat
deriving DecidableEq

/-- Little-endian 4-byte encoding of a 32-bit length. -/
def le32 (n : Nat) : List Nat :=
  [n % 256, n / 256 % 256, n / 65536 % 256, n / 16777216 % 256]

/-- The bytes the entry CRC covers: `length‖op‖payload`, with
`length = 1 + payload + 4` (op byte, payload, crc32 field). -/
def entry_crc_bytes (e : JEntry) : List Nat :=
  le32 (e.payload.length + 5) ++ [e.op % 256] ++ e.payload

/-- Modelled from the spec: an entry is accepted during replay iff its stored
crc32 is `0` (old format) or equals the CRC computed over
`length‖op‖payload`. -/
def entry_accepted (e : JEntry) : Bool :=
  e.stored == 0 || e.stored == crc32 (entry_crc_bytes e)

/-- A well-formed entry as the journal writer produces it: the stored crc32 is
computed over the entry's own bytes. -/
def mk_entry (op : Nat) (payload : List Nat) : JEntry :=
  ⟨op, payload, crc32 (entry_crc_bytes ⟨op, payload, 0⟩)⟩

/-- The ADD_FACT opcode (representative value; the spec fixes the op set, not
its numeric encoding). -/
def op_add_fact : Nat := 1

/-- Modelled from the spec: delta replay on open.  Starting from the base
snapshot's `fact_count`, accepted ADD_FACT entries add one fact each, skipped
(CRC-mismatching) entries are ignored, and replay always continues with the
remaining entries. -/
def replay_fact_count (base : Nat) : List JEntry → Nat
  | [] => base
  | e :: rest =>
    if entry_accepted e then
      if e.op = op_add_fact then replay_fact_count (base + 1) rest
      else replay_fact_count base rest
    else replay_fact_count base rest

/-- A ten-entry delta journal of valid ADD_FACT entries with distinct
payloads. -/
def demo_journal : List JEntry :=
  (List.range 10).map (fun i => mk_entry op_add_fact [65, 66, i])

/-- The journal `demo_journal` with one byte flipped (4 xor 255 = 251) in the payload of
the middle entry (index 4), keeping that entry's stored crc32. -/
def demo_journal_corrupted : List JEntry :=
  (List.range 10).map (fun i =>
    if i = 4 then
      ⟨op_add_fact, [65, 66, 251], crc32 (entry_crc_bytes ⟨op_add_fact, [65, 66, 4], 0⟩)⟩
    else mk_entry op_add_fact [65, 66, i])

/-! ## The hybrid network and compaction (C++ engine)

Modelled from the spec: `HybridReteNetwork` lives in the C++ extension; only
its tests (`tests/test_hybrid_network.py`) are present.  The state is the base
snapshot's facts, the delta's added facts, and the tombstones of deleted
facts; the live facts are base plus delta minus tombstones, and `compact()`
"merges base + delta into a new versioned base … and truncates the delta". -/

/-- Modelled from the spec: a hybrid (base + delta) network state. -/
structure HybridState where
  base : List AttrMap
  delta : List AttrMap
  deletedTombstones : List AttrMap
deriving DecidableEq

/-- The live facts: base followed by delta, minus deleted tombstones. -/
def live_facts (h : HybridState) : List AttrMap :=
  (h.base ++ h.delta).filter (fun f => !(h.deletedTombstones.contains f))

/-- Counter `fact_count()`: the number of live facts. -/
def hybrid_fact_count (h : HybridState) : Nat := (live_facts h).length

/-- Counter `base_fact_count()`. -/
def base_fact_count (h : HybridState) : Nat := h.base.length

/-- Counter `delta_fact_count()`. -/
def delta_fact_count (h : HybridState) : Nat := h.delta.length

/-- Counter `deleted_fact_count()`. -/
def deleted_fact_count (h : HybridState) : Nat := h.deletedTombstones.length

/-- Modelled from the spec: `compact()` merges base + delta into a new base
and truncates the delta (and with it the recorded deletions). -/
def hybrid_compact (h : HybridState) : HybridState :=
  ⟨live_facts h, [], []⟩

/-- A query against the hybrid network, as a function of the live facts (the
spec's compaction equivalence quantifies over every query of the state). -/
def hybrid_query (q : List AttrMap → List AttrMap) (h : HybridState) : List AttrMap :=
  q (live_facts h)

/-! ## `PropertyPathResultSet._compute_transitive_closure`
(query_result_sets.py lines 328-376) and `Reter.property_path`
(reasoner.py lines 1598-1631)

For a constant start node (the claim's case) the Python method runs a BFS:

* `queue = [(start_node, 0)]`, `visited = set()`, `results = []`;
* pop the front; skip it when already visited or `depth >= max_depth`;
* otherwise mark visited, query the direct successors of the current node
  (`reasoner.pattern((current, property, "?next"))`), and for each successor
  append the binding to `results` unless it is the start node seen at depth 0
  or already present, and enqueue it at `depth + 1` when not yet visited and
  `depth + 1 < max_depth`.

The graph of direct successors delivered by the `pattern` query enters as
`succ` over a finite node type (any concrete fact store mentions finitely
many individuals); the Python `visited` set is a `Finset`; a result binding
`{object_var: node}` is identified with its node.  The per-successor body
updates `results` and the queue independently, so it is split into a fold for
the results and a `filterMap` for the new queue entries. -/

/-- The `results` update for one successor `t` of a node expanded at depth
`k`: append the binding unless it is the start node seen at depth 0
(`next_node != start_node or depth > 0`) or already recorded. -/
def add_path_result {V : Type} [DecidableEq V] (start : V) (k : Nat)
    (rs : List V) (t : V) : List V :=
  if (t ≠ start ∨ 0 < k) ∧ t ∉ rs then rs ++ [t] else rs

/-- The `while queue:` loop of `_compute_transitive_closure`, for one start
node.  State: the queue of `(node, depth)` pairs, the visited set, the
results so far. -/
def closure_loop {V : Type} [DecidableEq V] [Fintype V]
    (succ : V → List V) (start : V) (d : Nat) :
    List (V × Nat) → Finset V → List V → List V
  | [], _, rs => rs
  | (c, k) :: rest, X, rs =>
    if c ∈ X ∨ d ≤ k then closure_loop succ start d rest X rs
    else
      closure_loop succ start d
        (rest ++ (succ c).filterMap
          (fun t => if t ∉ insert c X ∧ k + 1 < d then some (t, k + 1) else none))
        (insert c X)
        ((succ c).foldl (add_path_result start k) rs)
termination_by Q X _ => (Fintype.card V - X.card, Q.length)
decreasing_by
  · simp [Prod.lex_def] <;> omega
  · have hc : c ∉ X := by tauto
    have h1 : (insert c X).card = X.card + 1 := Finset.card_insert_of_not_mem hc
    have h2 : (insert c X).card ≤ Fintype.card V := Finset.card_le_univ _
    simp [Prod.lex_def] <;> omega

/-- Method `_compute_transitive_closure` for a constant start node: run the BFS from
`queue = [(start, 0)]`, `visited = set()`, `results = []`. -/
def compute_transitive_closure {V : Type} [DecidableEq V] [Fintype V]
    (succ : V → List V) (start : V) (d : Nat) : List V :=
  closure_loop succ start d [(start, 0)] ∅ []

/-- Method `Reter.property_path(subject, path, object, max_depth=10)` for a constant
subject and a simple transitive path `P*`: the successors under `P` are
`succ`, the depth bound defaults to 10. -/
def property_path {V : Type} [DecidableEq V] [Fintype V]
    (succ : V → List V) (start : V) (maxDepth : Nat := 10) : List V :=
  compute_transitive_closure succ start maxDepth

/-- The nodes reachable from `s` by paths of length exactly `L` in the
successor graph (with multiplicity; used only through membership). -/
def nstep {V : Type} (succ : V → List V) (s : V) : Nat → List V
  | 0 => [s]
  | L + 1 => (nstep succ s L).bind succ

/-- The specification-side result set of the claim: `t` is a direct successor
of some node `u` reachable in `L ≤ d - 1` steps, excluding the start node as
its own direct successor at depth 0. -/
def path_spec_set {V : Type} (succ : V → List V) (start : V) (d : Nat) (t : V) : Prop :=
  ∃ L u, L + 1 ≤ d ∧ u ∈ nstep succ start L ∧ t ∈ succ u ∧ ¬(u = start ∧ t = start)

/-- A layer-synchronized reformulation of `closure_loop`, used only as a proof
device (`closure_loop_eq_layers` proves it computes the same list): `F` holds
the pending frontier nodes at depth `k`, `G` the discovered nodes at depth
`k + 1`; when `F` is exhausted the loop advances one layer. -/
def closure_layers {V : Type} [DecidableEq V] [Fintype V]
    (succ : V → List V) (start : V) (d : Nat) :
    Nat → List V → List V → Finset V → List V → List V
  | _, [], [], _, rs => rs
  | k, [], g :: G, X, rs => closure_layers succ start d (k + 1) (g :: G) [] X rs
  | k, c :: F, G, X, rs =>
    if c ∈ X ∨ d ≤ k then closure_layers succ start d k F G X rs
    else
      closure_layers succ start d k F
        (G ++ (succ c).filter (fun t => decide (t ∉ insert c X ∧ k + 1 < d)))
        (insert c X)
        ((succ c).foldl (add_path_result start k) rs)
termination_by k F G X _ => (Fintype.card V - X.card, F.length + G.length, G.length)
decreasing_by
  · simp [Prod.lex_def] <;> omega
  · simp [Prod.lex_def] <;> omega
  · have hc : c ∉ X := by tauto
    have h1 : (insert c X).card = X.card + 1 := Finset.card_insert_of_not_mem hc
    have h2 : (insert c X).card ≤ Fintype.card V := Finset.card_le_univ _
    simp [Prod.lex_def] <;> omega

/-- A concrete four-node successor graph (a chain 0 → 1 → 2 → 3) used to
instantiate the property-path theorem. -/
def demo_succ : Fin 4 → List (Fin 4)
  | 0 => [1]
  | 1 => [2]
  | 2 => [3]
  | 3 => []

/-- A concrete fact store with one role assertion and one data assertion,
used to instantiate the classification theorems. -/
def demo_detect_facts : List AttrMap :=
  [[("type", "role_assertion"), ("role", "knows"), ("subject", "a"), ("object", "b")],
   [("type", "data_assertion"), ("property", "age"), ("subject", "a"), ("value", "3")]]

/-- The predicate set of a demo query. -/
def demo_detect_preds : List String := ["knows", "age", "same_as", "unseen"]

/-- A concrete live `role_assertion` fact `knows(Alice, Bob)`. -/
def demo_role_fact : AttrMap :=
  [("type", "role_assertion"), ("role", "knows"), ("subject", "Alice"), ("object", "Bob")]

/-! ### Lemmas about the BFS -/

/-- The conditional `filterMap` that enqueues successors is a `filter`
followed by tagging with the depth. -/
theorem filterMap_enqueue_eq {V : Type} (l : List V) (P : V → Prop)
    [DecidablePred P] (k : Nat) :
    l.filterMap (fun t => if P t then some (t, k) else none)
      = (l.filter (fun t => decide (P t))).map (fun t => (t, k)) := by
  induction l with
  | nil => rfl
  | cons a l ih =>
    by_cases h : P a <;> simp [List.filterMap_cons, List.filter_cons, h, ih]

/-- The loop `closure_loop` computes the same results as its layer-synchronized
reformulation: a queue holding the depth-`k` frontier `F` followed by the
depth-`k+1` frontier `G` behaves as the layered loop. -/
theorem closure_loop_eq_layers {V : Type} [DecidableEq V] [Fintype V]
    (succ : V → List V) (start : V) (d : Nat) :
    ∀ (k : Nat) (F G : List V) (X : Finset V) (rs : List V),
      closure_loop succ start d
          (F.map (fun n => (n, k)) ++ G.map (fun n => (n, k + 1))) X rs
        = closure_layers succ start d k F G X rs := by
  intro k F G X rs
  induction k, F, G, X, rs using closure_layers.induct succ start d with
  | case1 k X rs =>
    rw [closure_layers]
    simp [closure_loop]
  | case2 k g G X rs ih =>
    rw [closure_layers]
    simpa using ih
  | case3 k c F G X rs hc ih =>
    rw [closure_layers]
    simp only [List.map_cons, List.cons_append]
    rw [closure_loop, if_pos hc, if_pos hc, ih]
  | case4 k c F G X rs hc ih =>
    rw [closure_layers]
    simp only [List.map_cons, List.cons_append]
    rw [closure_loop, if_neg hc, if_neg hc]
    rw [filterMap_enqueue_eq (succ c) (fun t => t ∉ insert c X ∧ k + 1 < d) (k + 1)]
    rw [List.append_assoc, ← List.map_append]
    exact ih

/-- Membership after one BFS layer: a node is in `nstep (L+1)` iff it is a
direct successor of a node in `nstep L`. -/
theorem mem_nstep_succ {V : Type} (succ : V → List V) (s : V) (L : Nat) (t : V) :
    t ∈ nstep succ s (L + 1) ↔ ∃ u, u ∈ nstep succ s L ∧ t ∈ succ u := by
  simp [nstep, List.mem_bind]

/-- Membership in the results fold: a node is recorded after folding the
successor list `l` iff it was already recorded or it is a successor in `l`
passing the start-node-at-depth-0 guard. -/
theorem mem_foldl_add_path_result {V : Type} [DecidableEq V] (start : V) (k : Nat) :
    ∀ (l rs : List V) (t : V),
      t ∈ l.foldl (add_path_result start k) rs
        ↔ t ∈ rs ∨ (t ∈ l ∧ (t ≠ start ∨ 0 < k)) := by
  intro l
  induction l with
  | nil => simp
  | cons a l ih =>
    intro rs t
    rw [List.foldl_cons, ih]
    unfold add_path_result
    by_cases hg : (a ≠ start ∨ 0 < k) ∧ a ∉ rs
    · rw [if_pos hg]
      simp only [List.mem_append, List.mem_singleton, List.mem_cons]
      by_cases ht : t = a
      · subst ht
        tauto
      · tauto
    · rw [if_neg hg]
      simp only [List.mem_cons]
      by_cases ht : t = a
      · subst ht
        tauto
      · tauto

/-- The results fold preserves `Nodup`. -/
theorem nodup_foldl_add_path_result {V : Type} [DecidableEq V] (start : V) (k : Nat) :
    ∀ (l rs : List V), rs.Nodup → (l.foldl (add_path_result start k) rs).Nodup := by
  intro l
  induction l with
  | nil => exact fun rs h => h
  | cons a l ih =>
    intro rs h
    rw [List.foldl_cons]
    apply ih
    unfold add_path_result
    by_cases hg : (a ≠ start ∨ 0 < k) ∧ a ∉ rs
    · rw [if_pos hg]
      simp [List.nodup_append, h, hg.2]
    · rw [if_neg hg]
      exact h

/-- Soundness invariant of the layered loop: assuming the frontier nodes are
reachable at their depths, the recorded results all satisfy the claim's
result-set description, and the start node can only be expanded at depth 0,
everything the loop returns is in `path_spec_set`. -/
theorem closure_layers_sound {V : Type} [DecidableEq V] [Fintype V]
    (succ : V → List V) (start : V) (d : Nat) :
    ∀ (k : Nat) (F G : List V) (X : Finset V) (rs : List V),
      (∀ n ∈ F, n ∈ nstep succ start k) →
      (∀ n ∈ G, n ∈ nstep succ start (k + 1)) →
      (∀ t ∈ rs, path_spec_set succ start d t) →
      (0 < k → start ∈ X) →
      (k = 0 → ∀ n ∈ F, n = start) →
      (k = 0 → G ≠ [] → start ∈ X) →
      ∀ t ∈ closure_layers succ start d k F G X rs, path_spec_set succ start d t := by
  intro k F G X rs
  induction k, F, G, X, rs using closure_layers.induct succ start d with
  | case1 k X rs =>
    intro _ _ hrs _ _ _ t ht
    rw [closure_layers] at ht
    exact hrs t ht
  | case2 k g G X rs ih =>
    intro _ hG hrs hk h0 hG0
    rw [closure_layers]
    apply ih hG (by simp) hrs
    · intro _
      rcases Nat.eq_zero_or_pos k with hk0 | hkpos
      · exact hG0 hk0 (by simp)
      · exact hk hkpos
    · omega
    · omega
  | case3 k c F G X rs hc ih =>
    intro hF hG hrs hk h0 hG0
    rw [closure_layers, if_pos hc]
    apply ih (fun n hn => hF n (by simp [hn])) hG hrs hk
      (fun hk0 n hn => h0 hk0 n (by simp [hn])) hG0
  | case4 k c F G X rs hc ih =>
    intro hF hG hrs hk h0 hG0
    rw [closure_layers, if_neg hc]
    push_neg at hc
    have hkd : k + 1 ≤ d := hc.2
    have hcF : c ∈ nstep succ start k := hF c (by simp)
    have hcs : ¬(c = start ∧ k ≠ 0) := by
      rintro ⟨rfl, hk0⟩
      exact hc.1 (hk (Nat.pos_of_ne_zero hk0))
    apply ih
    · intro n hn
      exact hF n (by simp [hn])
    · intro n hn
      rcases List.mem_append.mp hn with h | h
      · exact hG n h
      · have := List.of_mem_filter h
        rw [mem_nstep_succ]
        exact ⟨c, hcF, List.mem_of_mem_filter h⟩
    · intro t ht
      rw [mem_foldl_add_path_result] at ht
      rcases ht with h | ⟨hts, hguard⟩
      · exact hrs t h
      · refine ⟨k, c, hkd, hcF, hts, ?_⟩
        rintro ⟨rfl, rfl⟩
        rcases hguard with h | h
        · exact h rfl
        · exact hcs ⟨rfl, by omega⟩
    · intro hkpos
      exact Finset.mem_insert_of_mem (hk hkpos)
    · intro hk0 n hn
      exact h0 hk0 n (by simp [hn])
    · intro hk0 _
      have : c = start := h0 hk0 c (by simp)
      rw [this]
      exact Finset.mem_insert_self start X

/-- At a quiescent BFS state (both frontiers empty), the visited set is closed
under the successor relation up to the depth cap, so it contains every node
reachable in at most `d - 1` steps. -/
theorem reach_subset_of_closed {V : Type} [DecidableEq V]
    (succ : V → List V) (start : V) (d k : Nat) (X : Finset V)
    (hC1 : ∀ j, j < k → ∀ v ∈ nstep succ start j, v ∈ X)
    (hC3 : k < d → ∀ v ∈ nstep succ start k, v ∈ X)
    (hC4 : k + 2 ≤ d → ∀ u ∈ X, ∀ v ∈ succ u, v ∈ X) :
    ∀ j, j + 1 ≤ d → ∀ v ∈ nstep succ start j, v ∈ X := by
  intro j
  induction j with
  | zero =>
    intro hd v hv
    rcases Nat.eq_zero_or_pos k with hk0 | hkpos
    · exact hC3 (by omega) v (by rwa [hk0])
    · exact hC1 0 hkpos v hv
  | succ j ih =>
    intro hd v hv
    rcases Nat.lt_trichotomy (j + 1) k with h | h | h
    · exact hC1 (j + 1) h v hv
    · exact hC3 (by omega) v (by rwa [← h])
    · rw [mem_nstep_succ] at hv
      rcases hv with ⟨u, hu, hsucc⟩
      exact hC4 (by omega) u (ih (by omega) u hu) v hsucc

/-- Completeness invariant of the layered loop: under the BFS frontier
invariants, every node of the claim's result set is in the returned result
list. -/
theorem closure_layers_complete {V : Type} [DecidableEq V] [Fintype V]
    (succ : V → List V) (start : V) (d : Nat) :
    ∀ (k : Nat) (F G : List V) (X : Finset V) (rs : List V),
      (∀ j, j < k → ∀ v ∈ nstep succ start j, v ∈ X) →
      (k < d → ∀ v ∈ nstep succ start k, v ∈ X ∨ v ∈ F) →
      (k + 2 ≤ d → ∀ u ∈ X, ∀ v ∈ succ u, v ∈ X ∨ v ∈ F ∨ v ∈ G) →
      (d ≤ k + 1 → G = []) →
      (∀ u ∈ X, ∀ t ∈ succ u, ¬(u = start ∧ t = start) → t ∈ rs) →
      (k = 0 → ∀ n ∈ F, n = start) →
      ∀ t, path_spec_set succ start d t → t ∈ closure_layers succ start d k F G X rs := by
  intro k F G X rs
  induction k, F, G, X, rs using closure_layers.induct succ start d with
  | case1 k X rs =>
    intro hC1 hC3 hC4 _ hC6 _ t ht
    rw [closure_layers]
    rcases ht with ⟨L, u, hLd, hu, hsucc, hguard⟩
    have hC3X : k < d → ∀ v ∈ nstep succ start k, v ∈ X := by
      intro hkd v hv
      rcases hC3 hkd v hv with h | h
      · exact h
      · simp at h
    have hC4X : k + 2 ≤ d → ∀ w ∈ X, ∀ v ∈ succ w, v ∈ X := by
      intro hkd w hw v hv
      rcases hC4 hkd w hw v hv with h | h | h
      · exact h
      · simp at h
      · simp at h
    have huX : u ∈ X :=
      reach_subset_of_closed succ start d k X hC1 hC3X hC4X L hLd u hu
    exact hC6 u huX t hsucc hguard
  | case2 k g G X rs ih =>
    intro hC1 hC3 hC4 hC5 hC6 hS5 t ht
    rw [closure_layers]
    have hGne : (g :: G) ≠ ([] : List V) := by simp
    have hkd2 : k + 2 ≤ d := by
      by_contra hcon
      exact hGne (hC5 (by omega))
    have hC1' : ∀ j, j < k + 1 → ∀ v ∈ nstep succ start j, v ∈ X := by
      intro j hj v hv
      rcases Nat.lt_or_ge j k with h | h
      · exact hC1 j h v hv
      · have : j = k := by omega
        subst this
        rcases hC3 (by omega) v hv with hx | hx
        · exact hx
        · simp at hx
    apply ih hC1'
    · intro _ v hv
      rw [mem_nstep_succ] at hv
      rcases hv with ⟨u, hu, hsucc⟩
      have huX : u ∈ X := by
        rcases hC3 (by omega) u hu with hx | hx
        · exact hx
        · simp at hx
      rcases hC4 hkd2 u huX v hsucc with h | h | h
      · exact Or.inl h
      · simp at h
      · exact Or.inr h
    · intro hd u huX v hsucc
      rcases hC4 (by omega) u huX v hsucc with h | h | h
      · exact Or.inl h
      · simp at h
      · exact Or.inr (Or.inl h)
    · intro _
      rfl
    · exact hC6
    · omega
    · exact ht
  | case3 k c F G X rs hc ih =>
    intro hC1 hC3 hC4 hC5 hC6 hS5 t ht
    rw [closure_layers, if_pos hc]
    apply ih hC1
    · intro hkd v hv
      rcases hC3 hkd v hv with h | h
      · exact Or.inl h
      · rcases List.mem_cons.mp h with h | h
        · subst h
          rcases hc with h | h
          · exact Or.inl h
          · omega
        · exact Or.inr h
    · intro hkd u huX v hsucc
      rcases hC4 hkd u huX v hsucc with h | h | h
      · exact Or.inl h
      · rcases List.mem_cons.mp h with h | h
        · subst h
          rcases hc with h | h
          · exact Or.inl h
          · omega
        · exact Or.inr (Or.inl h)
      · exact Or.inr (Or.inr h)
    · exact hC5
    · exact hC6
    · intro hk0 n hn
      exact hS5 hk0 n (by simp [hn])
    · exact ht
  | case4 k c F G X rs hc ih =>
    intro hC1 hC3 hC4 hC5 hC6 hS5 t ht
    rw [closure_layers, if_neg hc]
    push_neg at hc
    apply ih
    · intro j hj v hv
      exact Finset.mem_insert_of_mem (hC1 j hj v hv)
    · intro hkd v hv
      rcases hC3 hkd v hv with h | h
      · exact Or.inl (Finset.mem_insert_of_mem h)
      · rcases List.mem_cons.mp h with h | h
        · subst h
          exact Or.inl (Finset.mem_insert_self v X)
        · exact Or.inr h
    · intro hkd u huX v hsucc
      rcases Finset.mem_insert.mp huX with hu | hu
      · subst hu
        by_cases hvX : v ∈ insert u X
        · exact Or.inl hvX
        · refine Or.inr (Or.inr (List.mem_append.mpr (Or.inr ?_)))
          apply List.mem_filter.mpr
          exact ⟨hsucc, by simp [hvX]; omega⟩
      · rcases hC4 hkd u hu v hsucc with h | h | h
        · exact Or.inl (Finset.mem_insert_of_mem h)
        · rcases List.mem_cons.mp h with h | h
          · subst h
            exact Or.inl (Finset.mem_insert_self v X)
          · exact Or.inr (Or.inl h)
        · exact Or.inr (Or.inr (List.mem_append.mpr (Or.inl h)))
    · intro hd
      rw [hC5 hd]
      simp only [List.nil_append]
      have : ∀ x : V, ¬(decide (x ∉ insert c X ∧ k + 1 < d) = true) := by
        intro x
        simp only [decide_eq_true_eq]
        rintro ⟨_, hlt⟩
        omega
      rw [List.filter_eq_nil.mpr (fun x _ => this x)]
    · intro u huX s hsucc hguard
      rw [mem_foldl_add_path_result]
      rcases Finset.mem_insert.mp huX with hu | hu
      · subst hu
        refine Or.inr ⟨hsucc, ?_⟩
        by_cases hs : s = start
        · subst hs
          rcases Nat.eq_zero_or_pos k with hk0 | hkpos
          · exfalso
            exact hguard ⟨hS5 hk0 u (by simp), rfl⟩
          · exact Or.inr hkpos
        · exact Or.inl hs
      · exact Or.inl (hC6 u hu s hsucc hguard)
    · intro hk0 n hn
      exact hS5 hk0 n (by simp [hn])
    · exact ht

/-- The layered loop preserves `Nodup` of the result list. -/
theorem closure_layers_nodup {V : Type} [DecidableEq V] [Fintype V]
    (succ : V → List V) (start : V) (d : Nat) :
    ∀ (k : Nat) (F G : List V) (X : Finset V) (rs : List V),
      rs.Nodup → (closure_layers succ start d k F G X rs).Nodup := by
  intro k F G X rs
  induction k, F, G, X, rs using closure_layers.induct succ start d with
  | case1 k X rs =>
    intro h
    rw [closure_layers]
    exact h
  | case2 k g G X rs ih =>
    intro h
    rw [closure_layers]
    exact ih h
  | case3 k c F G X rs hc ih =>
    intro h
    rw [closure_layers, if_pos hc]
    exact ih h
  | case4 k c F G X rs hc ih =>
    intro h
    rw [closure_layers, if_neg hc]
    exact ih (nodup_foldl_add_path_result start k (succ c) rs h)

/-- The BFS from the initial state equals the layered loop started at layer 0
with frontier `[start]`. -/
theorem compute_transitive_closure_eq_layers {V : Type} [DecidableEq V] [Fintype V]
    (succ : V → List V) (start : V) (d : Nat) :
    compute_transitive_closure succ start d
      = closure_layers succ start d 0 [start] [] ∅ [] := by
  have h := closure_loop_eq_layers succ start d 0 [start] [] ∅ []
  simpa [compute_transitive_closure] using h

/-- C5: for every start node `s`, successor graph (the `P`-successors
delivered by the pattern query) and depth bound `d` — defaulting to 10 —
`property_path(s, "P*", obj, max_depth=d)` returns exactly one binding per
distinct node that is a direct `P`-successor of a node reachable from `s` in
at most `d - 1` steps, omitting `s` as its own direct depth-0 successor; in
particular, for `t ≠ s` the results are exactly the nodes reachable by a
`P`-path of length between 1 and `d`, and the bound is a hard cap: every
returned node is reachable within `d` steps. -/
theorem claim_property_path_depth_cap {V : Type} [DecidableEq V] [Fintype V]
    (succ : V → List V) (s : V) (d : Nat) :
    (∀ t : V, t ∈ property_path succ s d ↔ path_spec_set succ s d t)
    ∧ (∀ t : V, t ≠ s →
        (t ∈ property_path succ s d ↔ ∃ L, 1 ≤ L ∧ L ≤ d ∧ t ∈ nstep succ s L))
    ∧ (∀ t : V, t ∈ property_path succ s d → ∃ L, 1 ≤ L ∧ L ≤ d ∧ t ∈ nstep succ s L)
    ∧ property_path succ s = property_path succ s 10
    ∧ (property_path succ s d).Nodup := by
  have heq : property_path succ s d = closure_layers succ s d 0 [s] [] ∅ [] :=
    compute_transitive_closure_eq_layers succ s d
  have hmain : ∀ t : V, t ∈ property_path succ s d ↔ path_spec_set succ s d t := by
    intro t
    constructor
    · intro ht
      rw [heq] at ht
      refine closure_layers_sound succ s d 0 [s] [] ∅ []
        ?_ ?_ ?_ ?_ ?_ ?_ t ht
      · intro n hn
        simpa [nstep] using hn
      · simp
      · simp
      · omega
      · intro _ n hn
        simpa using hn
      · simp
    · intro ht
      rw [heq]
      refine closure_layers_complete succ s d 0 [s] [] ∅ []
        ?_ ?_ ?_ ?_ ?_ ?_ t ht
      · omega
      · intro _ v hv
        right
        simpa [nstep] using hv
      · simp
      · intro _
        rfl
      · simp
      · intro _ n hn
        simpa using hn
  have hcap : ∀ t : V, t ∈ property_path succ s d →
      ∃ L, 1 ≤ L ∧ L ≤ d ∧ t ∈ nstep succ s L := by
    intro t ht
    rcases (hmain t).mp ht with ⟨L, u, hLd, hu, hsucc, _⟩
    exact ⟨L + 1, by omega, hLd, (mem_nstep_succ succ s L t).mpr ⟨u, hu, hsucc⟩⟩
  refine ⟨hmain, ?_, hcap, rfl, ?_⟩
  · intro t hts
    constructor
    · exact hcap t
    · rintro ⟨L, h1L, hLd, ht⟩
      rcases L with _ | m
      · omega
      · rcases (mem_nstep_succ succ s m t).mp ht with ⟨u, hu, hsucc⟩
        refine (hmain t).mpr ⟨m, u, by omega, hu, hsucc, ?_⟩
        rintro ⟨_, rfl⟩
        exact hts rfl
  · rw [heq]
    exact closure_layers_nodup succ s d 0 [s] [] ∅ [] List.nodup_nil

/-- Witness for the property-path theorem on the four-node chain
`0 → 1 → 2 → 3`: with depth bound 2, node 1 is returned (path length 1) and
node 3 — whose shortest path from 0 has length 3 — is not. -/
theorem claim_property_path_depth_cap_witness :
    (1 : Fin 4) ∈ property_path demo_succ 0 2
    ∧ (3 : Fin 4) ∉ property_path demo_succ 0 2 := by
  constructor
  · exact ((claim_property_path_depth_cap demo_succ 0 2).1 1).mpr
      ⟨0, 0, by decide, by decide, by decide, by decide⟩
  · intro h
    rcases (claim_property_path_depth_cap demo_succ 0 2).2.2.1 3 h with ⟨L, h1, h2, hm⟩
    interval_cases L <;> revert hm <;> decide

/-! ### Lemmas about `_detect_property_types` -/

/-- A dict assignment is invisible at other keys. -/
theorem dict_upd_ne (m : String → Option String) (k v q : String) (h : q ≠ k) :
    dict_upd m k v q = m q := by
  simp [dict_upd, h]

/-- A dict assignment is visible at the assigned key. -/
theorem dict_upd_self (m : String → Option String) (k v : String) :
    dict_upd m k v k = some v := by
  simp [dict_upd]

/-- One fact-loop iteration either leaves a key unchanged, or sets it to
`"role"` because the fact is a `role_assertion` with that role, or sets it to
`"data"` because the fact is a `data_assertion` with that property. -/
theorem detect_step_cases (preds : List String) (m : String → Option String)
    (f : AttrMap) (p : String) :
    detect_step preds m f p = m p
    ∨ (detect_step preds m f p = some "role"
        ∧ fget f "type" = some "role_assertion" ∧ fget f "role" = some p)
    ∨ (detect_step preds m f p = some "data"
        ∧ fget f "type" = some "data_assertion" ∧ fget f "property" = some p) := by
  unfold detect_step
  by_cases h1 : fget f "type" = some "role_assertion"
  · rcases hr : fget f "role" with _ | r
    · simp [h1, hr]
    · by_cases hg : r ≠ "" ∧ r ∈ preds
      · by_cases hpr : p = r
        · subst hpr
          simp [h1, hr, hg, dict_upd_self]
        · simp [h1, hr, hg, dict_upd_ne m r "role" p hpr]
      · simp [h1, hr, hg]
  · by_cases h2 : fget f "type" = some "data_assertion"
    · rcases hr : fget f "property" with _ | r
      · simp [h1, h2, hr]
      · by_cases hg : r ≠ "" ∧ r ∈ preds
        · by_cases hpr : p = r
          · subst hpr
            simp [h1, h2, hr, hg, dict_upd_self]
          · simp [h1, h2, hr, hg, dict_upd_ne m r "data" p hpr]
        · simp [h1, h2, hr, hg]
    · simp [h1, h2]

/-- One fact-loop iteration sets the key to `"role"` when the fact is a live
`role_assertion` with a queried, nonempty role. -/
theorem detect_step_role (preds : List String) (m : String → Option String)
    (f : AttrMap) (p : String) (h1 : fget f "type" = some "role_assertion")
    (h2 : fget f "role" = some p) (hp : p ≠ "") (hmem : p ∈ preds) :
    detect_step preds m f p = some "role" := by
  simp [detect_step, h1, h2, hp, hmem, dict_upd_self]

/-- One fact-loop iteration sets the key to `"data"` when the fact is a live
`data_assertion` with a queried, nonempty property. -/
theorem detect_step_data (preds : List String) (m : String → Option String)
    (f : AttrMap) (p : String) (h1 : fget f "type" = some "data_assertion")
    (h2 : fget f "property" = some p) (hp : p ≠ "") (hmem : p ∈ preds) :
    detect_step preds m f p = some "data" := by
  simp [detect_step, h1, h2, hp, hmem, dict_upd_self]

/-- The fact loop leaves a key untouched when no fact mentions it as a role or
as a data property. -/
theorem detect_foldl_unchanged (preds : List String) :
    ∀ (l : List AttrMap) (m : String → Option String) (p : String),
      (∀ f ∈ l, ¬(fget f "type" = some "role_assertion" ∧ fget f "role" = some p)
        ∧ ¬(fget f "type" = some "data_assertion" ∧ fget f "property" = some p)) →
      (l.foldl (detect_step preds) m) p = m p := by
  intro l
  induction l with
  | nil => intro m p _; rfl
  | cons f l ih =>
    intro m p hl
    rw [List.foldl_cons, ih _ p (fun g hg => hl g (by simp [hg]))]
    rcases detect_step_cases preds m f p with h | ⟨_, h1, h2⟩ | ⟨_, h1, h2⟩
    · exact h
    · exact absurd ⟨h1, h2⟩ (hl f (by simp)).1
    · exact absurd ⟨h1, h2⟩ (hl f (by simp)).2

/-- The fact loop preserves a `"role"` classification as long as no
data-property fact mentions the key. -/
theorem detect_foldl_keeps_role (preds : List String) :
    ∀ (l : List AttrMap) (m : String → Option String) (p : String),
      (∀ f ∈ l, ¬(fget f "type" = some "data_assertion" ∧ fget f "property" = some p)) →
      m p = some "role" →
      (l.foldl (detect_step preds) m) p = some "role" := by
  intro l
  induction l with
  | nil => intro m p _ h; exact h
  | cons f l ih =>
    intro m p hl hm
    rw [List.foldl_cons]
    apply ih _ p (fun g hg => hl g (by simp [hg]))
    rcases detect_step_cases preds m f p with h | ⟨h, _, _⟩ | ⟨_, h1, h2⟩
    · rw [h, hm]
    · exact h
    · exact absurd ⟨h1, h2⟩ (hl f (by simp))

/-- The fact loop preserves a `"data"` classification as long as no
role-assertion fact mentions the key. -/
theorem detect_foldl_keeps_data (preds : List String) :
    ∀ (l : List AttrMap) (m : String → Option String) (p : String),
      (∀ f ∈ l, ¬(fget f "type" = some "role_assertion" ∧ fget f "role" = some p)) →
      m p = some "data" →
      (l.foldl (detect_step preds) m) p = some "data" := by
  intro l
  induction l with
  | nil => intro m p _ h; exact h
  | cons f l ih =>
    intro m p hl hm
    rw [List.foldl_cons]
    apply ih _ p (fun g hg => hl g (by simp [hg]))
    rcases detect_step_cases preds m f p with h | ⟨_, h1, h2⟩ | ⟨h, _, _⟩
    · rw [h, hm]
    · exact absurd ⟨h1, h2⟩ (hl f (by simp))
    · exact h

/-- The fact loop classifies a key as `"role"` when some fact mentions it as a
role and no fact mentions it as a data property. -/
theorem detect_foldl_role (preds : List String) :
    ∀ (l : List AttrMap) (m : String → Option String) (p : String),
      p ≠ "" → p ∈ preds →
      (∃ f ∈ l, fget f "type" = some "role_assertion" ∧ fget f "role" = some p) →
      (∀ f ∈ l, ¬(fget f "type" = some "data_assertion" ∧ fget f "property" = some p)) →
      (l.foldl (detect_step preds) m) p = some "role" := by
  intro l
  induction l with
  | nil =>
    intro m p _ _ hex _
    simp at hex
  | cons f l ih =>
    intro m p hp hmem hex hl
    rw [List.foldl_cons]
    by_cases hf : fget f "type" = some "role_assertion" ∧ fget f "role" = some p
    · apply detect_foldl_keeps_role preds l _ p (fun g hg => hl g (by simp [hg]))
      exact detect_step_role preds m f p hf.1 hf.2 hp hmem
    · rcases hex with ⟨g, hg, hgprop⟩
      rcases List.mem_cons.mp hg with rfl | hg
      · exact absurd hgprop hf
      · exact ih _ p hp hmem ⟨g, hg, hgprop⟩ (fun g hg => hl g (by simp [hg]))

/-- The fact loop classifies a key as `"data"` when some fact mentions it as a
data property and no fact mentions it as a role. -/
theorem detect_foldl_data (preds : List String) :
    ∀ (l : List AttrMap) (m : String → Option String) (p : String),
      p ≠ "" → p ∈ preds →
      (∃ f ∈ l, fget f "type" = some "data_assertion" ∧ fget f "property" = some p) →
      (∀ f ∈ l, ¬(fget f "type" = some "role_assertion" ∧ fget f "role" = some p)) →
      (l.foldl (detect_step preds) m) p = some "data" := by
  intro l
  induction l with
  | nil =>
    intro m p _ _ hex _
    simp at hex
  | cons f l ih =>
    intro m p hp hmem hex hl
    rw [List.foldl_cons]
    by_cases hf : fget f "type" = some "data_assertion" ∧ fget f "property" = some p
    · apply detect_foldl_keeps_data preds l _ p (fun g hg => hl g (by simp [hg]))
      exact detect_step_data preds m f p hf.1 hf.2 hp hmem
    · rcases hex with ⟨g, hg, hgprop⟩
      rcases List.mem_cons.mp hg with rfl | hg
      · exact absurd hgprop hf
      · exact ih _ p hp hmem ⟨g, hg, hgprop⟩ (fun g hg => hl g (by simp [hg]))

/-! ## Settling the claims -/

/-- C1: adding an exact duplicate fact (one agreeing with an existing live
fact on every attribute, including `type`) is a no-op that returns `false`:
when a fact identical to `f` is live, `add(f)` returns `added? = false` and
leaves the store and its `fact_count` unchanged; moreover `add(f)` followed by
`add(f)` leaves the store identical to the single-add state.  (Modelled from
the spec: the fact store lives in the C++ engine, outside this source
tree.) -/
theorem claim_store_add_duplicate_noop (st : FactStore) (f : AttrMap) :
    (st.facts.any (fact_identical f) = true →
      store_add st f = (st, false)
      ∧ store_fact_count (store_add st f).1 = store_fact_count st)
    ∧ store_add (store_add st f).1 f = ((store_add st f).1, false) := by
  have hrefl : fact_identical f f = true := by
    simp [fact_identical]
  constructor
  · intro hdup
    rw [store_add, if_pos hdup]
    exact ⟨rfl, rfl⟩
  · by_cases hdup : st.facts.any (fact_identical f) = true
    · have h1 : store_add st f = (st, false) := by rw [store_add, if_pos hdup]
      rw [h1, store_add, if_pos hdup]
    · have h1 : store_add st f = (⟨st.facts ++ [f]⟩, true) := by rw [store_add, if_neg hdup]
      have h2 : (FactStore.mk (st.facts ++ [f])).facts.any (fact_identical f) = true := by
        simp [List.any_append, hrefl]
      rw [h1, store_add, if_pos h2]

/-- Witness for the duplicate no-op at a concrete store holding one fact. -/
theorem claim_store_add_duplicate_noop_witness :
    store_add ⟨[[("type", "instance_of"), ("concept", "Thing"), ("individual", "A")]]⟩
        [("type", "instance_of"), ("concept", "Thing"), ("individual", "A")]
      = (⟨[[("type", "instance_of"), ("concept", "Thing"), ("individual", "A")]]⟩, false) :=
  ((claim_store_add_duplicate_noop
    ⟨[[("type", "instance_of"), ("concept", "Thing"), ("individual", "A")]]⟩
    [("type", "instance_of"), ("concept", "Thing"), ("individual", "A")]).1
    (by decide)).1

/-- C2: `add_triple(s, "type", o)` constructs exactly the fact
`{"type": "instance_of", "concept": o, "individual": s}` (which it then hands
to `network.add_fact`), and pattern compilation of a triple `(S, type, C)`
emits exactly the three α-level conditions `type = instance_of`,
`concept = C`, `individual = S` on the fresh fact variable
`"?f_" ++ toString acc.length` (so `?f_0` for a one-triple query). -/
theorem claim_add_triple_type_shape (fp : String → Bool) (facts : List AttrMap)
    (s o S C : String) :
    add_triple_fact fp facts s "type" o
      = [("type", "instance_of"), ("concept", o), ("individual", s)]
    ∧ pattern_conditions facts [(S, "type", C)]
      = [⟨"?f_0", "type", "instance_of"⟩, ⟨"?f_0", "concept", C⟩, ⟨"?f_0", "individual", S⟩]
    ∧ ∀ (ptypes : String → Option String) (acc : List Condition),
        compile_triple_step ptypes acc (S, "type", C)
          = acc ++ [⟨"?f_" ++ toString acc.length, "type", "instance_of"⟩,
              ⟨"?f_" ++ toString acc.length, "concept", C⟩,
              ⟨"?f_" ++ toString acc.length, "individual", S⟩] := by
  refine ⟨by simp [add_triple_fact], ?_, ?_⟩
  · have h0 : "?f_" ++ toString (0 : Nat) = "?f_0" := by decide
    simp [pattern_conditions, compile_triple_step, h0]
  · intro ptypes acc
    simp [compile_triple_step]

/-- C3 counterexample: in `pattern()` compilation, a predicate with no
matching facts does **not** default to data when the object looks like a
literal.  Compiling `("?x", "hasAge", "42")` against an empty fact store
yields `role_assertion` conditions — not the `data_assertion` conditions the
claim's default rule predicts for the literal-looking object `"42"`. -/
theorem claim_pattern_default_counterexample :
    pattern_conditions [] [("?x", "hasAge", "42")]
      = [⟨"?f_0", "type", "role_assertion"⟩, ⟨"?f_0", "role", "hasAge"⟩,
         ⟨"?f_0", "subject", "?x"⟩, ⟨"?f_0", "object", "42"⟩]
    ∧ pattern_conditions [] [("?x", "hasAge", "42")]
      ≠ [⟨"?f_0", "type", "data_assertion"⟩, ⟨"?f_0", "property", "hasAge"⟩,
         ⟨"?f_0", "subject", "?x"⟩, ⟨"?f_0", "value", "42"⟩] := by
  decide

/-- C3 (amended): during query compilation by `pattern()`, a non-`type`
predicate `P` is classified by inspecting existing facts — `"role"` if some
live fact is a `role_assertion` with role `P` and none is a `data_assertion`
with property `P`, `"data"` in the symmetric case, `"same_as"` for the
reserved same-as predicates when no fact mentions them — and a predicate with
no matching facts defaults to role *unconditionally*: the compiled conditions
are the `role_assertion` shape regardless of the object.  (The literal-based
default of the original claim exists only in `add_triple`.)  Here `preds` is
the predicate set handed to `_detect_property_types` — `pattern()` passes the
non-`type` predicates of the query. -/
theorem claim_pattern_classification_amended (facts : List AttrMap)
    (preds : List String) (p : String) (hp : p ≠ "") (hmem : p ∈ preds) :
    ((∃ f ∈ facts, fget f "type" = some "role_assertion" ∧ fget f "role" = some p) →
      (∀ f ∈ facts, ¬(fget f "type" = some "data_assertion" ∧ fget f "property" = some p)) →
      detect_property_types facts preds p = some "role")
    ∧ ((∃ f ∈ facts, fget f "type" = some "data_assertion" ∧ fget f "property" = some p) →
      (∀ f ∈ facts, ¬(fget f "type" = some "role_assertion" ∧ fget f "role" = some p)) →
      detect_property_types facts preds p = some "data")
    ∧ ((p = "same_as" ∨ p = "sameAs") →
      (∀ f ∈ facts,
        ¬(fget f "type" = some "role_assertion" ∧ fget f "role" = some p)
        ∧ ¬(fget f "type" = some "data_assertion" ∧ fget f "property" = some p)) →
      detect_property_types facts preds p = some "same_as")
    ∧ (p ≠ "same_as" → p ≠ "sameAs" →
      (∀ f ∈ facts,
        ¬(fget f "type" = some "role_assertion" ∧ fget f "role" = some p)
        ∧ ¬(fget f "type" = some "data_assertion" ∧ fget f "property" = some p)) →
      detect_property_types facts preds p = none
      ∧ ∀ (acc : List Condition) (s o : String), p ≠ "type" →
          compile_triple_step (detect_property_types facts preds) acc (s, p, o)
            = acc ++ [⟨"?f_" ++ toString acc.length, "type", "role_assertion"⟩,
                ⟨"?f_" ++ toString acc.length, "role", p⟩,
                ⟨"?f_" ++ toString acc.length, "subject", s⟩,
                ⟨"?f_" ++ toString acc.length, "object", o⟩]) := by
  refine ⟨?_, ?_, ?_, ?_⟩
  · intro hex hnone
    exact detect_foldl_role preds facts _ p hp hmem hex hnone
  · intro hex hnone
    exact detect_foldl_data preds facts _ p hp hmem hex hnone
  · intro hres hnone
    rw [detect_property_types, detect_foldl_unchanged preds facts _ p hnone]
    have hcond : "same_as" ∈ preds ∨ "sameAs" ∈ preds := by
      rcases hres with h | h
      · exact Or.inl (h ▸ hmem)
      · exact Or.inr (h ▸ hmem)
    rw [if_pos hcond]
    rcases hres with h | h
    · subst h
      rw [dict_upd_ne _ "sameAs" "same_as" "same_as" (by decide), dict_upd_self]
    · subst h
      rw [dict_upd_self]
  · intro hns hnsA hnone
    have hdet : detect_property_types facts preds p = none := by
      rw [detect_property_types, detect_foldl_unchanged preds facts _ p hnone]
      by_cases hcond : "same_as" ∈ preds ∨ "sameAs" ∈ preds
      · rw [if_pos hcond, dict_upd_ne _ "sameAs" "same_as" p hnsA,
          dict_upd_ne _ "same_as" "same_as" p hns]
      · rw [if_neg hcond]
    refine ⟨hdet, ?_⟩
    intro acc s o hptype
    simp [compile_triple_step, hptype, hdet]
    have hA : ¬(("role" : String) = "same_as") := by decide
    have hB : ¬(("role" : String) = "data") := by decide
    rw [if_neg hA, if_neg hB]

/-- Witness for the amended classification: with one `knows` role assertion
and one `age` data assertion live, `knows` classifies as role, `age` as data,
`same_as` stays reserved, and the unknown predicate `unseen` compiles to
`role_assertion` conditions although its object `"42"` looks like a
literal. -/
theorem claim_pattern_classification_amended_witness :
    detect_property_types demo_detect_facts demo_detect_preds "knows" = some "role"
    ∧ detect_property_types demo_detect_facts demo_detect_preds "age" = some "data"
    ∧ detect_property_types demo_detect_facts demo_detect_preds "same_as" = some "same_as"
    ∧ compile_triple_step (detect_property_types demo_detect_facts demo_detect_preds)
        [] ("?x", "unseen", "42")
      = [⟨"?f_0", "type", "role_assertion"⟩, ⟨"?f_0", "role", "unseen"⟩,
         ⟨"?f_0", "subject", "?x"⟩, ⟨"?f_0", "object", "42"⟩] := by
  refine ⟨?_, ?_, ?_, ?_⟩
  · exact (claim_pattern_classification_amended demo_detect_facts demo_detect_preds
      "knows" (by decide) (by decide)).1 (by decide) (by decide)
  · exact (claim_pattern_classification_amended demo_detect_facts demo_detect_preds
      "age" (by decide) (by decide)).2.1 (by decide) (by decide)
  · exact (claim_pattern_classification_amended demo_detect_facts demo_detect_preds
      "same_as" (by decide) (by decide)).2.2.1 (Or.inl rfl) (by decide)
  · have h := ((claim_pattern_classification_amended demo_detect_facts demo_detect_preds
      "unseen" (by decide) (by decide)).2.2.2 (by decide) (by decide) (by decide)).2
      [] "?x" "42" (by decide)
    simpa using h

/-- C4 (divergence witness): `live_pattern` does not compile the same α-level
conditions as `pattern()`.  For the single pattern `("?x", "knows", "?y")`
against a store holding the `role_assertion` `knows(Alice, Bob)`, `pattern()`
compiles `role_assertion` conditions whose constant tests select the fact,
while `live_pattern` compiles `data_assertion` conditions whose constant
tests select nothing — so the live result set and the plain query's results
differ on the same state, contradicting the code's own comment that the
conversion is the "same as pattern()". -/
theorem claim_live_pattern_divergence :
    live_pattern_conditions [("?x", "knows", "?y")]
      = [⟨"?f_0", "type", "data_assertion"⟩, ⟨"?f_0", "subject", "?x"⟩,
         ⟨"?f_0", "property", "knows"⟩, ⟨"?f_0", "value", "?y"⟩]
    ∧ pattern_conditions [demo_role_fact] [("?x", "knows", "?y")]
      = [⟨"?f_0", "type", "role_assertion"⟩, ⟨"?f_0", "role", "knows"⟩,
         ⟨"?f_0", "subject", "?x"⟩, ⟨"?f_0", "object", "?y"⟩]
    ∧ live_pattern_conditions [("?x", "knows", "?y")]
      ≠ pattern_conditions [demo_role_fact] [("?x", "knows", "?y")]
    ∧ alpha_select (pattern_conditions [demo_role_fact] [("?x", "knows", "?y")])
        [demo_role_fact] = [demo_role_fact]
    ∧ alpha_select (live_pattern_conditions [("?x", "knows", "?y")])
        [demo_role_fact] = [] := by
  decide

/-- C6: during delta-journal replay, an entry with stored `crc32 = 0` is
accepted, an entry whose stored crc32 differs from the CRC over
`length‖op‖payload` is skipped while replay continues, the final `fact_count`
is the base count plus the number of accepted ADD_FACT entries, and in the
concrete ten-entry scenario a one-byte payload flip in the middle entry gives
`fact_count = base + 9` on reopen (13 without corruption, 12 with it, over
base 3).  (Modelled from the spec: the journal lives in the C++ engine,
outside this source tree.) -/
theorem claim_delta_crc_replay (base : Nat) (es : List JEntry) (e : JEntry) :
    (e.stored = 0 → entry_accepted e = true)
    ∧ (e.stored ≠ 0 → e.stored ≠ crc32 (entry_crc_bytes e) → entry_accepted e = false)
    ∧ replay_fact_count base es
        = base + es.countP (fun x => entry_accepted x && (x.op == op_add_fact))
    ∧ replay_fact_count 3 demo_journal = 13
    ∧ replay_fact_count 3 demo_journal_corrupted = 12 := by
  refine ⟨?_, ?_, ?_, by decide, by decide⟩
  · intro h
    simp [entry_accepted, h]
  · intro h1 h2
    simp [entry_accepted, h1, h2]
  · induction es generalizing base with
    | nil => simp [replay_fact_count]
    | cons x rest ih =>
      rw [replay_fact_count]
      by_cases hacc : entry_accepted x = true
      · by_cases hop : x.op = op_add_fact
        · rw [if_pos hacc, if_pos hop, ih]
          have hcount : (entry_accepted x && (x.op == op_add_fact)) = true := by
            simp [hacc, hop]
          rw [List.countP_cons, hcount]
          simp
          omega
        · rw [if_pos hacc, if_neg hop, ih]
          have hcount : (entry_accepted x && (x.op == op_add_fact)) = false := by
            simp [hacc, hop]
          rw [List.countP_cons, hcount]
          simp
      · rw [if_neg hacc, ih]
        have hcount : (entry_accepted x && (x.op == op_add_fact)) = false := by
          simp [hacc]
        rw [List.countP_cons, hcount]
        simp

/-- Witness for the CRC replay rules: a zero-CRC entry is accepted; the
byte-flipped middle entry of the demo journal is rejected. -/
theorem claim_delta_crc_replay_witness :
    entry_accepted ⟨1, [7, 7, 7], 0⟩ = true
    ∧ entry_accepted ⟨1, [65, 66, 251], crc32 (entry_crc_bytes ⟨1, [65, 66, 4], 0⟩)⟩
        = false :=
  ⟨(claim_delta_crc_replay 0 [] ⟨1, [7, 7, 7], 0⟩).1 rfl,
   (claim_delta_crc_replay 0 []
      ⟨1, [65, 66, 251], crc32 (entry_crc_bytes ⟨1, [65, 66, 4], 0⟩)⟩).2.1
     (by decide) (by decide)⟩

/-- C7: for every hybrid-network state (in particular every reachable one),
`compact()` leaves `fact_count` unchanged and establishes
`base_fact_count = fact_count`, `delta_fact_count = 0` and
`deleted_fact_count = 0`, and every query — a function of the live facts —
returns the same result before and after compaction.  (Modelled from the
spec: the hybrid network lives in the C++ engine, outside this source
tree.) -/
theorem claim_compact_equivalence (h : HybridState) :
    hybrid_fact_count (hybrid_compact h) = hybrid_fact_count h
    ∧ base_fact_count (hybrid_compact h) = hybrid_fact_count (hybrid_compact h)
    ∧ delta_fact_count (hybrid_compact h) = 0
    ∧ deleted_fact_count (hybrid_compact h) = 0
    ∧ ∀ q, hybrid_query q (hybrid_compact h) = hybrid_query q h := by
  have hlive : live_facts (hybrid_compact h) = live_facts h := by
    simp [live_facts, hybrid_compact]
  refine ⟨by simp [hybrid_fact_count, hlive], ?_, rfl, rfl, fun q => by
    simp [hybrid_query, hlive]⟩
  show (hybrid_compact h).base.length = (live_facts (hybrid_compact h)).length
  rw [hlive]
  rfl

/-- C8: in `add_triple`, for a predicate that is neither `"type"` nor
classified by `_detect_property_types` from the existing facts, the
constructed fact is the `data_assertion` dict exactly when the object value
parses as a float, starts with a double or single quote, or consists only of
digits — and the `role_assertion` dict otherwise. -/
theorem claim_add_triple_literal_detection (fp : String → Bool)
    (facts : List AttrMap) (s p o : String) (hp : p ≠ "type")
    (hdet : detect_property_types facts [p] p = none) :
    (add_triple_fact fp facts s p o = data_assertion_dict p s o
      ↔ is_literal_value fp o = true)
    ∧ (add_triple_fact fp facts s p o = role_assertion_dict p s o
      ↔ is_literal_value fp o = false) := by
  have hne : data_assertion_dict p s o ≠ role_assertion_dict p s o := by
    intro hcon
    have : ("type", "data_assertion") = ("type", "role_assertion") := by
      have := congrArg (fun (l : AttrMap) => (l : List (String × String)).head?) hcon
      simpa [data_assertion_dict, role_assertion_dict] using this
    simp at this
  by_cases hlit : is_literal_value fp o = true
  · constructor
    · simp [add_triple_fact, hp, hdet, hlit]
    · simp [add_triple_fact, hp, hdet, hlit]
      exact hne
  · have hlit' : is_literal_value fp o = false := by
      simpa using hlit
    constructor
    · simp [add_triple_fact, hp, hdet, hlit', Ne.symm hne]
    · simp [add_triple_fact, hp, hdet, hlit']

/-- Witness for the literal detection: against an empty store, `hasAge 42`
builds a data assertion, `knows Bob` builds a role assertion. -/
theorem claim_add_triple_literal_detection_witness :
    add_triple_fact (fun _ => false) [] "alice" "hasAge" "42"
      = data_assertion_dict "hasAge" "alice" "42"
    ∧ add_triple_fact (fun _ => false) [] "alice" "knows" "Bob"
      = role_assertion_dict "knows" "alice" "Bob" :=
  ⟨(claim_add_triple_literal_detection (fun _ => false) [] "alice" "hasAge" "42"
      (by decide) (by decide)).1.mpr (by decide),
   (claim_add_triple_literal_detection (fun _ => false) [] "alice" "knows" "Bob"
      (by decide) (by decide)).2.mpr (by decide)⟩

/-- C9: within one process, the auto-generated cache key is a deterministic
function of `(patterns, where, values, not_exists)` — equal arguments give
equal keys — and the second of two `pattern()` calls with equal arguments
finds the first call's production via `get_cached_query` and returns it
without building a new network fragment (the build flag is `false` and the
network state is unchanged). -/
theorem claim_pattern_cache_reuse (h : QueryArgs → Int) (n : NetCache) (a b : QueryArgs) :
    (a = b → cache_key h a = cache_key h b)
    ∧ (pattern_call h (pattern_call h n a).2.1 a).1 = (pattern_call h n a).1
    ∧ (pattern_call h (pattern_call h n a).2.1 a).2.1 = (pattern_call h n a).2.1
    ∧ (pattern_call h (pattern_call h n a).2.1 a).2.2 = false := by
  refine ⟨fun hab => by rw [hab], ?_⟩
  rcases hfind : get_cached_query n (cache_key h a) with _ | p
  · have h0 : n.cache.find? (fun e => e.1 == cache_key h a) = none := by
      rcases hf : n.cache.find? (fun e => e.1 == cache_key h a) with _ | v
      · exact hf
      · rw [get_cached_query, hf] at hfind
        simp at hfind
    have h1 : pattern_call h n a
        = (n.nextId, ⟨n.cache ++ [(cache_key h a, n.nextId)], n.nextId + 1⟩, true) := by
      rw [pattern_call, hfind]
    have h2 : get_cached_query
        ⟨n.cache ++ [(cache_key h a, n.nextId)], n.nextId + 1⟩ (cache_key h a)
        = some n.nextId := by
      rw [get_cached_query]
      rw [List.find?_append, h0]
      simp
    rw [h1]
    rw [pattern_call, h2]
    exact ⟨rfl, rfl, rfl⟩
  · have h1 : pattern_call h n a = (p, n, false) := by
      rw [pattern_call, hfind]
    rw [h1]
    rw [pattern_call, hfind]
    exact ⟨rfl, rfl, rfl⟩

/-- Witness for the cache reuse: with a constant hash, an empty network cache
and the empty argument tuple, the second call does not build. -/
theorem claim_pattern_cache_reuse_witness :
    cache_key (fun _ => 0) ⟨[], [], [], []⟩ = cache_key (fun _ => 0) ⟨[], [], [], []⟩
    ∧ (pattern_call (fun _ => 0)
        (pattern_call (fun _ => 0) ⟨[], 0⟩ ⟨[], [], [], []⟩).2.1 ⟨[], [], [], []⟩).2.2
      = false :=
  ⟨(claim_pattern_cache_reuse (fun _ => 0) ⟨[], 0⟩ ⟨[], [], [], []⟩ ⟨[], [], [], []⟩).1 rfl,
   (claim_pattern_cache_reuse (fun _ => 0) ⟨[], 0⟩ ⟨[], [], [], []⟩ ⟨[], [], [], []⟩).2.2.2⟩

/-- C10: `get_inferred_facts()` keeps the schema of `get_all_facts()`; when
the facts table has an `inferred` column it returns exactly the rows whose
`inferred` value is the string `"true"`, and otherwise an empty table with
the same schema — hence every returned row is a row of `get_all_facts()`. -/
theorem claim_get_inferred_facts_filter (t : ArrowTable) :
    (get_inferred_facts t).colNames = t.colNames
    ∧ ("inferred" ∈ t.colNames →
        (get_inferred_facts t).rows
          = t.rows.filter (fun r => fget r "inferred" == some "true"))
    ∧ ("inferred" ∉ t.colNames → (get_inferred_facts t).rows = [])
    ∧ ∀ r ∈ (get_inferred_facts t).rows, r ∈ t.rows := by
  by_cases hmem : "inferred" ∈ t.colNames
  · refine ⟨by simp [get_inferred_facts, hmem], fun _ => by simp [get_inferred_facts, hmem],
      fun hn => absurd hmem hn, ?_⟩
    intro r hr
    simp only [get_inferred_facts, if_pos hmem] at hr
    exact List.mem_of_mem_filter hr
  · refine ⟨by simp [get_inferred_facts, hmem], fun hc => absurd hc hmem,
      fun _ => by simp [get_inferred_facts, hmem], ?_⟩
    intro r hr
    simp [get_inferred_facts, hmem] at hr

/-- Witness for the inferred-facts filter on a one-column, two-row table:
only the `inferred = "true"` row survives. -/
theorem claim_get_inferred_facts_filter_witness :
    (get_inferred_facts ⟨["inferred"], [[("inferred", "true")], [("inferred", "false")]]⟩).rows
      = [[("inferred", "true")]] := by
  have h := (claim_get_inferred_facts_filter
    ⟨["inferred"], [[("inferred", "true")], [("inferred", "false")]]⟩).2.1 (by decide)
  rw [h]
  decide
